import Mathlib

/-!
Verification development for the autolineage repository: a shallow embedding of
the content-identity helpers (tracker.get_file_info), the provenance store
(database.LineageDatabase), the lineage inference engine (tracker.DatasetTracker,
tracker.LineageContext) and the graph derivation (graph.LineageGraph), together
with theorems settling the specification claims about them.
-/

namespace AutoLineage

/-! ### Content Identity (tracker.py, get_file_info)

Path handling follows Python pathlib semantics: `Path(p).name` is the final
component of the path (trailing slashes stripped), and `Path(p).suffix` is
`name[i:]` for `i = name.rfind(".")` when `0 < i < len(name) - 1`, else the
empty string.  Strings are handled through their character lists. -/

/-- Final path component, as in pathlib `Path(p).name`: strip trailing
slashes, then take the trailing run of non-slash characters. -/
def lastComp (l : List Char) : List Char :=
  ((l.reverse.dropWhile (fun c => c = '/')).takeWhile (fun c => c ≠ '/')).reverse

/-- Characters strictly after the last dot of a name, or `none` when the name
has no dot (the `name.rfind "."` part of pathlib suffix computation). -/
def afterLastDot : List Char → Option (List Char)
  | [] => none
  | c :: cs =>
    match afterLastDot cs with
    | some rest => some rest
    | none => if c = '.' then some cs else none

/-- Pathlib `Path(p).suffix` on a name: with `i` the index of the last dot,
return `name[i:]` when `0 < i < len(name) - 1`, else the empty list.
`i = name.length - aft.length - 1` for `aft` the characters after the dot, so
`0 < i` is `aft.length + 2 ≤ name.length` and `i < len - 1` is `aft ≠ []`. -/
def pySuffix (name : List Char) : List Char :=
  match afterLastDot name with
  | none => []
  | some aft => if aft ≠ [] ∧ aft.length + 2 ≤ name.length then '.' :: aft else []

/-- Format tag of `get_file_info`: `path.suffix[1:] if path.suffix else None`
(the leading dot is removed; the case of the extension is left as written). -/
def formatOf (p : String) : Option String :=
  let suf := pySuffix (lastComp p.data)
  if suf = [] then none else some (String.mk (suf.drop 1))

/-- One file as the file system presents it at observation time: its canonical
absolute path (`str(path.absolute())`), byte size, and content hash
(`hash_file`, the SHA256 of the byte stream, treated as an oracle value). -/
structure FsEntry where
  absPath : String
  size : Nat
  hash : String
deriving DecidableEq

/-- File-system oracle: what `Path(p).exists()` / `stat` / `hash_file` return
for each raw path at the moment of a call; `none` means the path is missing. -/
abbrev Fs := String → Option FsEntry

/-- Metadata record returned by `get_file_info` (the `modified` timestamp is
not consumed by any tracked component and is omitted). -/
structure FileInfo where
  filepath : String
  filename : String
  size : Nat
  format : Option String
  hash : String
deriving DecidableEq

/-- Embedding of `get_file_info`: `None` when the path does not exist,
otherwise the metadata dictionary. -/
def get_file_info (fs : Fs) (filepath : String) : Option FileInfo :=
  match fs filepath with
  | none => none
  | some e =>
    some { filepath := e.absPath
           filename := String.mk (lastComp filepath.data)
           size := e.size
           format := formatOf filepath
           hash := e.hash }

/-! ### Provenance Store (database.py, LineageDatabase)

Rows mirror the sqlite schema.  `uuid.uuid4()` is modelled by a fresh-id
counter (the only property used is global uniqueness), `CURRENT_TIMESTAMP` by
a monotone clock.  The sqlite connection is opened without ever executing
`PRAGMA foreign_keys = ON`, so although the schema declares FOREIGN KEY
constraints, sqlite does not enforce them on this connection; the
`foreignKeysOn` flag records that connection state. -/

structure DatasetRow where
  id : String
  filepath : String
  hash : String
  size : Nat
  format : Option String
  created_at : Nat
deriving DecidableEq

structure OperationRow where
  id : String
  operation_type : String
  function_name : Option String
  code_snippet : Option String
  executed_at : Nat
deriving DecidableEq

structure LineageRow where
  id : String
  source_id : String
  target_id : String
  operation_id : String
  relationship_type : String
  created_at : Nat
deriving DecidableEq

structure LineageDatabase where
  datasets : List DatasetRow
  operations : List OperationRow
  lineage : List LineageRow
  foreignKeysOn : Bool
  nextId : Nat
  clock : Nat
deriving DecidableEq

/-- A freshly opened database (`LineageDatabase.__init__` + `_create_tables`):
empty tables; the foreign-keys pragma is never executed, so it keeps the
sqlite default of off. -/
def LineageDatabase.new : LineageDatabase :=
  { datasets := [], operations := [], lineage := [], foreignKeysOn := false
    nextId := 0, clock := 0 }

/-- Fresh unique identifier (`str(uuid.uuid4())`). -/
def mkId (n : Nat) : String := "uuid-" ++ toString n

/-- Embedding of `add_dataset`: insert a row with a fresh id and the current
timestamp, commit immediately, return the new id. -/
def LineageDatabase.add_dataset (db : LineageDatabase) (filepath file_hash : String)
    (size : Nat) (file_format : Option String) : String × LineageDatabase :=
  let dataset_id := mkId db.nextId
  (dataset_id,
   { db with
       datasets := db.datasets ++
         [{ id := dataset_id, filepath := filepath, hash := file_hash
            size := size, format := file_format, created_at := db.clock }]
       nextId := db.nextId + 1, clock := db.clock + 1 })

/-- Embedding of `add_operation`. -/
def LineageDatabase.add_operation (db : LineageDatabase) (operation_type : String)
    (function_name code_snippet : Option String) : String × LineageDatabase :=
  let operation_id := mkId db.nextId
  (operation_id,
   { db with
       operations := db.operations ++
         [{ id := operation_id, operation_type := operation_type
            function_name := function_name, code_snippet := code_snippet
            executed_at := db.clock }]
       nextId := db.nextId + 1, clock := db.clock + 1 })

/-- Whether the three entity references of a lineage row resolve, as the
declared FOREIGN KEY constraints would require. -/
def LineageDatabase.resolves (db : LineageDatabase)
    (source_id target_id operation_id : String) : Bool :=
  db.datasets.any (fun d => d.id == source_id) &&
  db.datasets.any (fun d => d.id == target_id) &&
  db.operations.any (fun o => o.id == operation_id)

/-- The raw INSERT into the lineage table, committed immediately. -/
def insertLineageRow (db : LineageDatabase)
    (source_id target_id operation_id relationship_type : String) :
    String × LineageDatabase :=
  let lineage_id := mkId db.nextId
  (lineage_id,
   { db with
       lineage := db.lineage ++
         [{ id := lineage_id, source_id := source_id, target_id := target_id
            operation_id := operation_id, relationship_type := relationship_type
            created_at := db.clock }]
       nextId := db.nextId + 1, clock := db.clock + 1 })

/-- Embedding of `add_lineage`: sqlite raises IntegrityError on a dangling
reference only when foreign-key enforcement is on for the connection;
otherwise the row is inserted as given. -/
def LineageDatabase.add_lineage (db : LineageDatabase)
    (source_id target_id operation_id : String)
    (relationship_type : String) : Except String (String × LineageDatabase) :=
  if db.foreignKeysOn && !(db.resolves source_id target_id operation_id) then
    Except.error "IntegrityError"
  else
    Except.ok (insertLineageRow db source_id target_id operation_id relationship_type)

/-! ### Store queries (ORDER BY is modelled by an insertion sort on the key) -/

def insertBy {α : Type} (le : α → α → Bool) (x : α) : List α → List α
  | [] => [x]
  | y :: ys => if le x y then x :: y :: ys else y :: insertBy le x ys

def sortBy {α : Type} (le : α → α → Bool) (l : List α) : List α :=
  l.foldr (insertBy le) []

/-- Embedding of `get_all_datasets`: `SELECT * FROM datasets ORDER BY
created_at DESC`. -/
def LineageDatabase.get_all_datasets (db : LineageDatabase) : List DatasetRow :=
  sortBy (fun a b => decide (b.created_at ≤ a.created_at)) db.datasets

/-- One row of the `get_lineage_graph` joined view. -/
structure GraphViewRow where
  source : String
  target : String
  operation : Option String
  operation_type : String
  created_at : Nat
deriving DecidableEq

/-- The inner JOIN of one lineage row against the datasets and operations
tables; `none` when some reference does not resolve (the row is dropped). -/
def joinRow (db : LineageDatabase) (l : LineageRow) : Option GraphViewRow :=
  match db.datasets.find? (fun d => d.id == l.source_id),
        db.datasets.find? (fun d => d.id == l.target_id),
        db.operations.find? (fun o => o.id == l.operation_id) with
  | some d1, some d2, some o =>
    some { source := d1.filepath, target := d2.filepath
           operation := o.function_name, operation_type := o.operation_type
           created_at := l.created_at }
  | _, _, _ => none

/-- Embedding of `get_lineage_graph`: the joined view `ORDER BY l.created_at`
(ascending). -/
def LineageDatabase.get_lineage_graph (db : LineageDatabase) : List GraphViewRow :=
  sortBy (fun a b => decide (a.created_at ≤ b.created_at))
    (db.lineage.filterMap (joinRow db))

/-! ### Lineage Inference Engine (tracker.py, DatasetTracker)

The tracker holds the identity cache (`tracked_files`) and the pending
read/write windows.  The calling-context introspection of
`_auto_create_lineage` (stack-frame walk plus `linecache`) is an input of the
event: `none` models a caller frame that could not be determined. -/

/-- Best-effort calling context as `inspect`/`linecache` recover it: the
caller frame's function name and, when readable, its current source line. -/
structure CallerFrame where
  function_name : String
  code_line : Option String
deriving DecidableEq

structure Tracker where
  db : LineageDatabase
  tracked_files : List (String × String)
  recent_reads : List String
  recent_writes : List String
deriving DecidableEq

/-- A fresh tracker (`DatasetTracker.__init__`): fresh store, empty cache and
empty pending windows. -/
def Tracker.new : Tracker :=
  { db := LineageDatabase.new, tracked_files := [], recent_reads := []
    recent_writes := [] }

/-- The edge-creation loop of `_auto_create_lineage`: for each recent read
whose dataset id is cached, insert one lineage row to the written dataset via
the given operation (with foreign-key enforcement off on this connection,
`add_lineage` always succeeds, and each insert commits on its own). -/
def addReadEdges (db : LineageDatabase) (tracked : List (String × String))
    (reads : List String) (output_id operation_id : String) : LineageDatabase :=
  reads.foldl
    (fun db input_file =>
      match tracked.lookup input_file with
      | some input_id =>
        (insertLineageRow db input_id output_id operation_id "derived_from").2
      | none => db)
    db

/-- Embedding of `_auto_create_lineage`: return unchanged when there are no
recent reads; otherwise create one transform Operation attributed to the
caller frame (sentinel "unknown" when it cannot be determined), link every
recent read to the written dataset, and clear the recent reads. -/
def Tracker.auto_create_lineage (t : Tracker) (output_file : String)
    (caller : Option CallerFrame) : Tracker :=
  if t.recent_reads = [] then t
  else
    let function_name := (caller.map CallerFrame.function_name).getD "unknown"
    let code_snippet := caller.bind CallerFrame.code_line
    let r := t.db.add_operation "transform" (some function_name) code_snippet
    let db2 :=
      match t.tracked_files.lookup output_file with
      | none => r.2
      | some output_id => addReadEdges r.2 t.tracked_files t.recent_reads output_id r.1
    { t with db := db2, recent_reads := [] }

/-- Embedding of `track_file`: resolve the file, reuse the cached dataset id
for an already-tracked canonical path (inserting nothing) or insert a new
dataset row, then update the pending read/write windows, auto-creating
lineage on writes. -/
def Tracker.track_file (t : Tracker) (fs : Fs) (filepath : String)
    (operation_type : String) (caller : Option CallerFrame) :
    Option String × Tracker :=
  match get_file_info fs filepath with
  | none => (none, t)
  | some file_info =>
    let abs_path := file_info.filepath
    match t.tracked_files.lookup abs_path with
    | some existing_id =>
      if operation_type = "read" then
        if abs_path ∈ t.recent_reads then (some existing_id, t)
        else (some existing_id, { t with recent_reads := t.recent_reads ++ [abs_path] })
      else if operation_type = "write" then
        if abs_path ∈ t.recent_writes then (some existing_id, t)
        else
          let t2 := { t with recent_writes := t.recent_writes ++ [abs_path] }
          (some existing_id, t2.auto_create_lineage abs_path caller)
      else (some existing_id, t)
    | none =>
      let r := t.db.add_dataset abs_path file_info.hash file_info.size file_info.format
      let t1 := { t with db := r.2, tracked_files := t.tracked_files ++ [(abs_path, r.1)] }
      if operation_type = "read" then
        (some r.1, { t1 with recent_reads := t1.recent_reads ++ [abs_path] })
      else if operation_type = "write" then
        let t2 := { t1 with recent_writes := t1.recent_writes ++ [abs_path] }
        (some r.1, t2.auto_create_lineage abs_path caller)
      else (some r.1, t1)

/-- The source/target tracking loops of `track_transformation`: track each
file, collecting the ids of the successfully tracked ones. -/
def trackFilesAcc (t : Tracker) (fs : Fs) (files : List String)
    (operation_type : String) (caller : Option CallerFrame) :
    List String × Tracker :=
  files.foldl
    (fun acc fp =>
      match acc.2.track_file fs fp operation_type caller with
      | (some id, t2) => (acc.1 ++ [id], t2)
      | (none, t2) => (acc.1, t2))
    ([], t)

/-- Embedding of `track_transformation`: track sources as reads and targets
as writes (each write firing the auto-lineage heuristic), add one transform
operation, then insert the full bipartite edge set, one committed insert at a
time. -/
def Tracker.track_transformation (t : Tracker) (fs : Fs)
    (source_files target_files : List String) (function_name : String)
    (code_snippet : Option String) (caller : Option CallerFrame) :
    String × Tracker :=
  let src := trackFilesAcc t fs source_files "read" caller
  let tgt := trackFilesAcc src.2 fs target_files "write" caller
  let op := tgt.2.db.add_operation "transform" (some function_name) code_snippet
  let db2 :=
    src.1.foldl
      (fun db sid =>
        tgt.1.foldl
          (fun db tid => (insertLineageRow db sid tid op.1 "derived_from").2)
          db)
      op.2
  (op.1, { tgt.2 with db := db2 })

/-- Bipartite edge insertion with an injected storage failure before the
insert numbered `failAt` (counting from 0): inserts already committed stay
visible, the failure aborts the rest and surfaces the store as it stands. -/
def insertEdgesFaulty :
    LineageDatabase → List (String × String) → String → Nat →
    Except LineageDatabase LineageDatabase
  | db, [], _, _ => Except.ok db
  | db, _ :: _, _, 0 => Except.error db
  | db, p :: rest, operation_id, Nat.succ k =>
    insertEdgesFaulty (insertLineageRow db p.1 p.2 operation_id "derived_from").2
      rest operation_id k

/-- Fault-injection variant of `track_transformation` (spec section 7 asks
the multi-step write to appear atomic): the run fails at the `failAt`-th edge
insert of the bipartite loop, and the error carries the tracker whose store
holds everything committed up to that point. -/
def Tracker.track_transformation_faulty (t : Tracker) (fs : Fs)
    (source_files target_files : List String) (function_name : String)
    (code_snippet : Option String) (caller : Option CallerFrame)
    (failAt : Nat) : Except Tracker (String × Tracker) :=
  let src := trackFilesAcc t fs source_files "read" caller
  let tgt := trackFilesAcc src.2 fs target_files "write" caller
  let op := tgt.2.db.add_operation "transform" (some function_name) code_snippet
  let pairs := (src.1.map (fun sid => tgt.1.map (fun tid => (sid, tid)))).flatten
  match insertEdgesFaulty op.2 pairs op.1 failAt with
  | Except.ok db2 => Except.ok (op.1, { tgt.2 with db := db2 })
  | Except.error dbF => Except.error { tgt.2 with db := dbF }

/-! ### Operation context (tracker.py, LineageContext) -/

structure LineageContext where
  operation_type : String
  function_name : String
  inputs : List String
  outputs : List String
  code_snippet : Option String
deriving DecidableEq

/-- Embedding of `LineageContext.__exit__`: when the body raised (an
exception type is present) nothing is persisted; otherwise the operation is
recorded and every input is linked to every output. -/
def LineageContext.exitHandler (ctx : LineageContext) (t : Tracker) (fs : Fs)
    (exc_type : Option String) (caller : Option CallerFrame) : Tracker :=
  match exc_type with
  | some _ => t
  | none =>
    let op := t.db.add_operation ctx.operation_type (some ctx.function_name) ctx.code_snippet
    let t1 := { t with db := op.2 }
    ctx.inputs.foldl
      (fun ta input_file =>
        let ri := ta.track_file fs input_file "read" caller
        ctx.outputs.foldl
          (fun tb output_file =>
            let ro := tb.track_file fs output_file "write" caller
            match ri.1, ro.1 with
            | some input_id, some output_id =>
              { ro.2 with
                  db := (insertLineageRow ro.2.db input_id output_id op.1 "derived_from").2 }
            | _, _ => ro.2)
          ri.2)
      t1

/-- One observed event as `track_file` consumes it: the file-system state at
event time, the raw path, the direction, and the best-effort caller frame. -/
abbrev TrackEvent := Fs × String × String × Option CallerFrame

/-- Run a sequence of `track_file` events from a tracker state (an arbitrary
session tail: any paths, directions, file-system states and caller frames). -/
def runEvents (t : Tracker) : List TrackEvent → Tracker
  | [] => t
  | ev :: rest => runEvents (t.track_file ev.1 ev.2.1 ev.2.2.1 ev.2.2.2).2 rest

/-! ### Graph Derivation (graph.py, LineageGraph)

Nodes are keyed by display label (the basename of the path); `add_edge` on a
`networkx.DiGraph` inserts both endpoints as nodes in order and keeps at most
one edge per ordered pair. -/

def addNode (nodes : List String) (n : String) : List String :=
  if n ∈ nodes then nodes else nodes ++ [n]

def addEdgePair (edges : List (String × String)) (e : String × String) :
    List (String × String) :=
  if e ∈ edges then edges else edges ++ [e]

structure LGraph where
  nodes : List String
  edges : List (String × String)
deriving DecidableEq

/-- One iteration of the `build` loop: `add_edge(source_basename,
target_basename)`, which registers both endpoints as nodes and the ordered
pair as an edge. -/
def addRow (g : LGraph) (row : GraphViewRow) : LGraph :=
  let s := String.mk (lastComp row.source.data)
  let tg := String.mk (lastComp row.target.data)
  { nodes := addNode (addNode g.nodes s) tg
    edges := addEdgePair g.edges (s, tg) }

/-- Embedding of `LineageGraph.build`: fold the joined edge view into a
directed graph on basenames (an empty view leaves the cleared graph empty). -/
def LineageGraph.build (db : LineageDatabase) : LGraph :=
  (db.get_lineage_graph).foldl addRow { nodes := [], edges := [] }

/-- One round of Kahn's algorithm: the nodes of `S` with no incoming edge
from inside `S`. -/
def removable (S : List String) (E : List (String × String)) : List String :=
  S.filter (fun v => !(E.any (fun e => decide (e.1 ∈ S) && e.2 == v)))

/-- Kahn-style acyclicity decision: repeatedly delete the nodes with no
remaining incoming edge; the graph is acyclic exactly when everything gets
deleted.  `fuel = |S|` rounds suffice since every successful round deletes at
least one node. -/
def kahnAux : Nat → List String → List (String × String) → Bool
  | 0, S, _ => S.isEmpty
  | Nat.succ fuel, S, E =>
    if S.isEmpty then true
    else
      let R := removable S E
      if R.isEmpty then false
      else kahnAux fuel (S.filter (fun v => decide (v ∉ R))) E

/-- Embedding of `networkx.is_directed_acyclic_graph` on the built graph. -/
def isDirectedAcyclic (g : LGraph) : Bool :=
  kahnAux g.nodes.length g.nodes g.edges

structure GraphStats where
  nodes : Nat
  edges : Nat
  is_dag : Bool
  sources : List String
  sinks : List String
deriving DecidableEq

/-- Embedding of `LineageGraph.get_stats`: node/edge counts, acyclicity, the
nodes of in-degree zero and the nodes of out-degree zero. -/
def LineageGraph.get_stats (g : LGraph) : GraphStats :=
  { nodes := g.nodes.length
    edges := g.edges.length
    is_dag := isDirectedAcyclic g
    sources := g.nodes.filter (fun n => decide (∀ e ∈ g.edges, e.2 ≠ n))
    sinks := g.nodes.filter (fun n => decide (∀ e ∈ g.edges, e.1 ≠ n)) }

/-- Nonempty directed reachability along the edge list: `Reach E a b` holds
when some path of one or more edges leads from `a` to `b`. -/
inductive Reach (E : List (String × String)) : String → String → Prop
  | head {a b : String} : (a, b) ∈ E → Reach E a b
  | cons {a b c : String} : (a, b) ∈ E → Reach E b c → Reach E a c

/-- A directed cycle: some node reaches itself along one or more edges. -/
def HasCycle (E : List (String × String)) : Prop := ∃ v, Reach E v v

/-! ### Result projections used by closed statements -/

/-- Store recovered from a possibly failed transformation run: on failure the
error value carries the tracker seen by the caller of the raising call. -/
def persistedDb (r : Except Tracker (String × Tracker)) : LineageDatabase :=
  match r with
  | Except.ok p => p.2.db
  | Except.error t => t.db

/-- Database reached by an `add_lineage` call, when it succeeded. -/
def addLineageResultDb (r : Except String (String × LineageDatabase)) :
    Option LineageDatabase :=
  match r with
  | Except.ok p => some p.2
  | Except.error _ => none

/-! ### Concrete fixtures for closed statements and witnesses -/

/-- A small file system with four distinct existing files. -/
def fsFour : Fs := fun p =>
  if p = "a.csv" then some { absPath := "/data/a.csv", size := 10, hash := "ha" }
  else if p = "b.csv" then some { absPath := "/data/b.csv", size := 11, hash := "hb" }
  else if p = "c.csv" then some { absPath := "/data/c.csv", size := 12, hash := "hc" }
  else if p = "d.csv" then some { absPath := "/data/d.csv", size := 13, hash := "hd" }
  else none

/-- A file system holding one file whose extension is upper-case. -/
def fsUpper : Fs := fun p =>
  if p = "data.CSV" then some { absPath := "/data/data.CSV", size := 7, hash := "hu" }
  else none

/-- The same paths as `fsFour` but with changed file content for `a.csv`:
same canonical path, different fingerprint. -/
def fsChanged : Fs := fun p =>
  if p = "a.csv" then some { absPath := "/data/a.csv", size := 99, hash := "h-changed" }
  else fsFour p

/-- A store holding the straight-line pipeline raw.csv → clean.csv →
final.csv. -/
def dbPipeline : LineageDatabase :=
  let r1 := LineageDatabase.new.add_dataset "/p/raw.csv" "h1" 1 (some "csv")
  let r2 := r1.2.add_dataset "/p/clean.csv" "h2" 2 (some "csv")
  let r3 := r2.2.add_dataset "/p/final.csv" "h3" 3 (some "csv")
  let o1 := r3.2.add_operation "transform" (some "clean") none
  let e1 := insertLineageRow o1.2 r1.1 r2.1 o1.1 "derived_from"
  (insertLineageRow e1.2 r2.1 r3.1 o1.1 "derived_from").2

/-! ## Theorems -/

/-- Claim C1 (code evaluated at the failing input): a declared transformation
with 2 input paths and 2 output paths on a fresh tracker persists 6 lineage
edges, not 4, referencing 2 distinct operation ids, not one — tracking the
first output path as a write fires the auto-lineage heuristic before the
manual bipartite edges are written, so the heuristic is not bypassed; and
with a failure injected before the third bipartite insert, 4 edges stay
persisted, not zero, because every insert commits on its own (no atomicity). -/
theorem track_transformation_two_by_two_run :
    (let r := Tracker.new.track_transformation fsFour ["a.csv", "b.csv"]
        ["c.csv", "d.csv"] "merge" none none
     r.2.db.lineage.length = 6 ∧
     (r.2.db.lineage.map (fun l => l.operation_id)).dedup.length = 2 ∧
     r.2.db.lineage.countP (fun l => l.operation_id == r.1) = 4 ∧
     r.2.db.operations.length = 2) ∧
    (persistedDb (Tracker.new.track_transformation_faulty fsFour
        ["a.csv", "b.csv"] ["c.csv", "d.csv"] "merge" none none 2)).lineage.length = 4 := by
  decide

/-- Claim C2 (code evaluated at the failing input): on a fresh store, an
`add_lineage` naming a source dataset id, target dataset id and operation id
that resolve to nothing does not fail with IntegrityError — the connection
never executes the sqlite foreign-keys pragma, so the declared FOREIGN KEY
constraints go unenforced — and the dangling edge row is silently persisted. -/
theorem add_lineage_dangling_refs_inserted :
    LineageDatabase.new.foreignKeysOn = false ∧
    LineageDatabase.new.resolves "sX" "tX" "oX" = false ∧
    (addLineageResultDb (LineageDatabase.new.add_lineage "sX" "tX" "oX" "derived_from")).map
        (fun db => db.lineage.map (fun l => (l.source_id, l.target_id, l.operation_id))) =
      some [("sX", "tX", "oX")] := by
  decide

/-- Claim C3 counterexample, refuting both universal parts of the claim at
concrete inputs.  First: a write event on a fresh tracker, whose
`pendingReads` window is empty, creates no Operation record at all and no
edges — not the one Operation the claim asserts for every write event.
Second: after write(c.csv), read(a.csv), a repeated write event on c.csv (a
path already in the recent-writes window, with pendingReads nonempty)
creates no Operation either and leaves `pendingReads` uncleared — refuting
the claim that every write clears pendingReads unconditionally. -/
theorem write_event_counterexamples :
    ((Tracker.new.track_file fsFour "c.csv" "write" none).2.db.operations.length = 0 ∧
     (Tracker.new.track_file fsFour "c.csv" "write" none).2.db.lineage = []) ∧
    (((Tracker.new.track_file fsFour "c.csv" "write" none).2.track_file fsFour "a.csv"
        "read" none).2.recent_reads = ["/data/a.csv"] ∧
     ((((Tracker.new.track_file fsFour "c.csv" "write" none).2.track_file fsFour "a.csv"
        "read" none).2.track_file fsFour "c.csv" "write" none).2).db.operations.length = 0 ∧
     ((((Tracker.new.track_file fsFour "c.csv" "write" none).2.track_file fsFour "a.csv"
        "read" none).2.track_file fsFour "c.csv" "write" none).2).recent_reads =
       ["/data/a.csv"]) := by
  decide

/-- Claim C4 counterexample: `get_file_info` on a path with an upper-case
extension returns the format tag with its case preserved, not lower-cased. -/
theorem format_preserves_extension_case :
    (get_file_info fsUpper "data.CSV").map FileInfo.format = some (some "CSV") ∧
    ("CSV" : String) ≠ "csv" := by
  decide

/-- Inserting into a sorted-so-far list permutes with simple cons. -/
theorem insertBy_perm {α : Type} (le : α → α → Bool) (x : α) (l : List α) :
    List.Perm (insertBy le x l) (x :: l) := by
  induction l with
  | nil => simp [insertBy]
  | cons y ys ih =>
    simp only [insertBy]
    split
    · exact List.Perm.refl _
    · exact (ih.cons y).trans (List.Perm.swap x y ys)

/-- The insertion sort returns a permutation of its input. -/
theorem sortBy_perm {α : Type} (le : α → α → Bool) (l : List α) :
    List.Perm (sortBy le l) l := by
  induction l with
  | nil => simp [sortBy]
  | cons x xs ih => exact (insertBy_perm le x (sortBy le xs)).trans (ih.cons x)

/-- Insertion preserves pairwise sortedness for a total transitive order. -/
theorem insertBy_pairwise {α : Type} (le : α → α → Bool)
    (htot : ∀ a b, le a b = false → le b a = true)
    (htrans : ∀ a b c, le a b = true → le b c = true → le a c = true)
    (x : α) (l : List α) (h : l.Pairwise (fun a b => le a b = true)) :
    (insertBy le x l).Pairwise (fun a b => le a b = true) := by
  induction l with
  | nil => simp [insertBy]
  | cons y ys ih =>
    rw [List.pairwise_cons] at h
    obtain ⟨hy, hys⟩ := h
    simp only [insertBy]
    split
    case isTrue hxy =>
      refine List.Pairwise.cons ?_ (List.Pairwise.cons hy hys)
      intro z hz
      rcases List.mem_cons.mp hz with rfl | hz2
      · exact hxy
      · exact htrans x y z hxy (hy z hz2)
    case isFalse hxy =>
      have hyx : le y x = true := htot x y (Bool.eq_false_iff.mpr hxy)
      refine List.Pairwise.cons ?_ (ih hys)
      intro z hz
      rcases List.mem_cons.mp ((insertBy_perm le x ys).mem_iff.mp hz) with rfl | hz2
      · exact hyx
      · exact hy z hz2

/-- The insertion sort sorts, for a total transitive order. -/
theorem sortBy_pairwise {α : Type} (le : α → α → Bool)
    (htot : ∀ a b, le a b = false → le b a = true)
    (htrans : ∀ a b c, le a b = true → le b c = true → le a c = true)
    (l : List α) :
    (sortBy le l).Pairwise (fun a b => le a b = true) := by
  induction l with
  | nil => simp [sortBy]
  | cons x xs ih => exact insertBy_pairwise le htot htrans x _ ih

/-- Claim C5: for any store contents, `get_all_datasets` returns a
permutation of the datasets table ordered by descending creation time
(newest first), and `get_lineage_graph` returns a permutation of the joined
edge view (source path, target path, operation function, operation kind,
edge creation time) ordered by edge creation time ascending (oldest first). -/
theorem store_query_ordering (db : LineageDatabase) :
    db.get_all_datasets.Pairwise (fun a b => b.created_at ≤ a.created_at) ∧
    List.Perm db.get_all_datasets db.datasets ∧
    db.get_lineage_graph.Pairwise (fun a b => a.created_at ≤ b.created_at) ∧
    List.Perm db.get_lineage_graph (db.lineage.filterMap (joinRow db)) := by
  refine ⟨?_, sortBy_perm _ _, ?_, sortBy_perm _ _⟩
  · have h := sortBy_pairwise (fun a b : DatasetRow => decide (b.created_at ≤ a.created_at))
      (fun a b hab => by simpa using Nat.le_of_lt (by simpa using hab))
      (fun a b c hab hbc => by
        simp only [decide_eq_true_eq] at hab hbc ⊢
        exact le_trans hbc hab)
      db.datasets
    exact h.imp (fun hab => of_decide_eq_true hab)
  · have h := sortBy_pairwise (fun a b : GraphViewRow => decide (a.created_at ≤ b.created_at))
      (fun a b hab => by simpa using Nat.le_of_lt (by simpa using hab))
      (fun a b c hab hbc => by
        simp only [decide_eq_true_eq] at hab hbc ⊢
        exact le_trans hab hbc)
      (db.lineage.filterMap (joinRow db))
    exact h.imp (fun hab => of_decide_eq_true hab)

/-- Claim C10: if the body of an operation context raised (an exception type
reaches `__exit__`), the exit handler persists nothing — no Operation, no
Dataset, no LineageEdge — and the tracker, including its store, is returned
unchanged. -/
theorem exitHandler_on_exception_persists_nothing
    (ctx : LineageContext) (t : Tracker) (fs : Fs) (s : String)
    (caller : Option CallerFrame) :
    ctx.exitHandler t fs (some s) caller = t := rfl

/-- Dropping while a predicate that fails everywhere drops nothing. -/
theorem dropWhile_of_all_false {α : Type} (p : α → Bool) (l : List α)
    (h : ∀ x ∈ l, p x = false) : l.dropWhile p = l := by
  cases l with
  | nil => rfl
  | cons x xs => simp [List.dropWhile_cons, h x (List.mem_cons_self x xs)]

/-- Taking while a predicate that holds everywhere takes everything. -/
theorem takeWhile_of_all_true {α : Type} (p : α → Bool) (l : List α)
    (h : ∀ x ∈ l, p x = true) : l.takeWhile p = l := by
  induction l with
  | nil => rfl
  | cons x xs ih =>
    simp [List.takeWhile_cons, h x (List.mem_cons_self x xs),
      ih (fun y hy => h y (List.mem_cons_of_mem x hy))]

/-- A path without slashes is its own final component. -/
theorem lastComp_of_no_slash (l : List Char) (h : '/' ∉ l) : lastComp l = l := by
  unfold lastComp
  rw [dropWhile_of_all_false _ _ ?hd, takeWhile_of_all_true _ _ ?ht, List.reverse_reverse]
  case hd =>
    intro x hx
    simp only [decide_eq_false_iff_not]
    rintro rfl
    exact h (List.mem_reverse.mp hx)
  case ht =>
    intro x hx
    simp only [decide_eq_true_eq]
    rintro rfl
    exact h (List.mem_reverse.mp hx)

/-- A name without dots has no last dot. -/
theorem afterLastDot_of_no_dot (l : List Char) (h : '.' ∉ l) : afterLastDot l = none := by
  induction l with
  | nil => rfl
  | cons c cs ih =>
    have hc : c ≠ '.' := fun hc => h (hc ▸ List.mem_cons_self c cs)
    have hcs : '.' ∉ cs := fun hm => h (List.mem_cons_of_mem c hm)
    simp [afterLastDot, ih hcs, hc]

/-- The characters after the last dot of `xs ++ "." ++ ext` are `ext` when
`ext` itself is dot-free. -/
theorem afterLastDot_append (xs ext : List Char) (h : '.' ∉ ext) :
    afterLastDot (xs ++ '.' :: ext) = some ext := by
  induction xs with
  | nil => simp [afterLastDot, afterLastDot_of_no_dot ext h]
  | cons c cs ih => simp [afterLastDot, ih]

/-- Claim C4 amended: the format tag of `get_file_info` is derived purely
from the path (independent of the file-system content), it is the final
extension without the leading dot with its case preserved as written (not
lower-cased), and a path whose final component has no extension yields a
null format. -/
theorem format_from_extension :
    (∀ (fs : Fs) (p : String) (e : FsEntry), fs p = some e →
        (get_file_info fs p).map FileInfo.format = some (formatOf p)) ∧
    (∀ stem ext : List Char, stem ≠ [] → ext ≠ [] →
        '/' ∉ stem → '/' ∉ ext → '.' ∉ ext →
        formatOf (String.mk (stem ++ '.' :: ext)) = some (String.mk ext)) ∧
    (∀ p : String, '.' ∉ lastComp p.data → formatOf p = none) := by
  refine ⟨?_, ?_, ?_⟩
  · intro fs p e h
    simp [get_file_info, h]
  · intro stem ext hstem hext hs he hd
    have hns : '/' ∉ stem ++ '.' :: ext := by
      intro hm
      rcases List.mem_append.mp hm with hm | hm
      · exact hs hm
      · rcases List.mem_cons.mp hm with hm | hm
        · exact absurd hm (by decide)
        · exact he hm
    have hlen : ext.length + 2 ≤ stem.length + (ext.length + 1) := by
      have := List.length_pos.mpr hstem
      omega
    show formatOf (String.mk (stem ++ '.' :: ext)) = some (String.mk ext)
    unfold formatOf
    rw [show (String.mk (stem ++ '.' :: ext)).data = stem ++ '.' :: ext from rfl]
    rw [lastComp_of_no_slash _ hns]
    simp [pySuffix, afterLastDot_append _ _ hd, hext, hlen]
  · intro p h
    simp [formatOf, pySuffix, afterLastDot_of_no_dot _ h]

/-- Witness for the amended format claim at a concrete path `data.tar`. -/
theorem format_from_extension_witness :
    ("data".data ≠ [] ∧ "tar".data ≠ []) ∧
    formatOf (String.mk ("data".data ++ '.' :: "tar".data)) = some (String.mk "tar".data) :=
  ⟨⟨by decide, by decide⟩,
   format_from_extension.2.1 "data".data "tar".data (by decide) (by decide)
     (by decide) (by decide) (by decide)⟩

/-- Appending new bindings to an association list leaves a missing key bound
to the appended value. -/
theorem lookup_append_self {β : Type} (l : List (String × β)) (k : String) (v : β)
    (h : l.lookup k = none) : (l ++ [(k, v)]).lookup k = some v := by
  rw [List.lookup_append, h]
  simp [List.lookup]

/-- The edge loop of the auto-lineage step touches only the lineage table:
datasets and operations are preserved, and the new rows are exactly one edge
per cached recent read, to the written dataset, via the one operation. -/
theorem addReadEdges_spec (tr : List (String × String)) (oid op : String) :
    ∀ (reads : List String) (db : LineageDatabase),
      (addReadEdges db tr reads oid op).datasets = db.datasets ∧
      (addReadEdges db tr reads oid op).operations = db.operations ∧
      ∃ L, (addReadEdges db tr reads oid op).lineage = db.lineage ++ L ∧
        L.map (fun l => (l.source_id, l.target_id, l.operation_id)) =
          reads.filterMap (fun r => (tr.lookup r).map (fun i => (i, oid, op))) := by
  intro reads
  induction reads with
  | nil => intro db; exact ⟨rfl, rfl, [], by simp [addReadEdges], by simp⟩
  | cons r rs ih =>
    intro db
    cases h : tr.lookup r with
    | none =>
      have hstep : addReadEdges db tr (r :: rs) oid op = addReadEdges db tr rs oid op := by
        simp [addReadEdges, h]
      obtain ⟨h1, h2, L, h3, h4⟩ := ih db
      exact ⟨hstep ▸ h1, hstep ▸ h2, L, hstep ▸ h3, by simp [h, h4]⟩
    | some i =>
      have hstep : addReadEdges db tr (r :: rs) oid op =
          addReadEdges (insertLineageRow db i oid op "derived_from").2 tr rs oid op := by
        simp [addReadEdges, h]
      obtain ⟨h1, h2, L, h3, h4⟩ := ih (insertLineageRow db i oid op "derived_from").2
      refine ⟨hstep ▸ h1, hstep ▸ h2,
        { id := mkId db.nextId, source_id := i, target_id := oid, operation_id := op
          relationship_type := "derived_from", created_at := db.clock } :: L, ?_, ?_⟩
      · rw [hstep, h3]
        simp [insertLineageRow]
      · simp [h, h4]

/-- Behaviour of the auto-lineage step when the pending-reads window is
nonempty and the written path resolves in the identity cache: one transform
operation attributed to the caller (sentinel "unknown" when absent), one edge
per cached pending read into the written dataset, pending reads cleared, and
everything else untouched. -/
theorem auto_create_lineage_spec (t : Tracker) (o : String) (c : Option CallerFrame)
    (oid : String) (hlook : t.tracked_files.lookup o = some oid)
    (hne : t.recent_reads ≠ []) :
    ∃ op L,
      (t.auto_create_lineage o c).db.operations = t.db.operations ++ [op] ∧
      op.operation_type = "transform" ∧
      op.function_name = some ((c.map CallerFrame.function_name).getD "unknown") ∧
      (t.auto_create_lineage o c).db.lineage = t.db.lineage ++ L ∧
      L.map (fun l => (l.source_id, l.target_id, l.operation_id)) =
        t.recent_reads.filterMap (fun r =>
          (t.tracked_files.lookup r).map (fun i => (i, oid, op.id))) ∧
      (t.auto_create_lineage o c).recent_reads = [] ∧
      (t.auto_create_lineage o c).db.datasets = t.db.datasets ∧
      (t.auto_create_lineage o c).tracked_files = t.tracked_files ∧
      (t.auto_create_lineage o c).recent_writes = t.recent_writes := by
  have hauto : t.auto_create_lineage o c =
      { t with
          db := addReadEdges
            (t.db.add_operation "transform"
              (some ((c.map CallerFrame.function_name).getD "unknown"))
              (c.bind CallerFrame.code_line)).2
            t.tracked_files t.recent_reads oid (mkId t.db.nextId)
          recent_reads := [] } := by
    simp only [Tracker.auto_create_lineage, if_neg hne, hlook]
    rfl
  obtain ⟨h1, h2, L, h3, h4⟩ := addReadEdges_spec t.tracked_files oid (mkId t.db.nextId)
    t.recent_reads
    (t.db.add_operation "transform"
      (some ((c.map CallerFrame.function_name).getD "unknown"))
      (c.bind CallerFrame.code_line)).2
  refine ⟨{ id := mkId t.db.nextId, operation_type := "transform"
            function_name := some ((c.map CallerFrame.function_name).getD "unknown")
            code_snippet := c.bind CallerFrame.code_line
            executed_at := t.db.clock }, L, ?_, rfl, rfl, ?_, h4, ?_, ?_, ?_, ?_⟩
  · rw [hauto]
    exact h2
  · rw [hauto]
    exact h3
  · rw [hauto]
  · rw [hauto]
    exact h1
  · rw [hauto]
  · rw [hauto]

/-- Claim C3 amended: a write event for an existing path that is not already
in the recent-writes window creates, when pendingReads is nonempty, exactly
one Operation attributed to the calling context (sentinel "unknown" when it
cannot be determined) and one LineageEdge from each cached pending read to
the just-written Dataset, then clears pendingReads; when pendingReads is
empty, no Operation and no edge is created; a write to a path already in the
recent-writes window is covered by neither and performs no auto-lineage at
all. -/
theorem write_event_behavior (t : Tracker) (fs : Fs) (p : String)
    (caller : Option CallerFrame) (e : FsEntry)
    (hfs : fs p = some e) :
    (∀ ex, t.tracked_files.lookup e.absPath = some ex → e.absPath ∈ t.recent_writes →
        t.track_file fs p "write" caller = (some ex, t)) ∧
    ((t.tracked_files.lookup e.absPath = none ∨ e.absPath ∉ t.recent_writes) →
      (t.recent_reads = [] →
        (t.track_file fs p "write" caller).2.db.operations = t.db.operations ∧
        (t.track_file fs p "write" caller).2.db.lineage = t.db.lineage ∧
        (t.track_file fs p "write" caller).2.recent_reads = []) ∧
    (t.recent_reads ≠ [] →
      ∃ wid op L,
        (t.track_file fs p "write" caller).1 = some wid ∧
        (t.track_file fs p "write" caller).2.tracked_files.lookup e.absPath = some wid ∧
        (t.track_file fs p "write" caller).2.db.operations = t.db.operations ++ [op] ∧
        op.operation_type = "transform" ∧
        op.function_name = some ((caller.map CallerFrame.function_name).getD "unknown") ∧
        (t.track_file fs p "write" caller).2.db.lineage = t.db.lineage ++ L ∧
        L.map (fun l => (l.source_id, l.target_id, l.operation_id)) =
          t.recent_reads.filterMap (fun r =>
            ((t.track_file fs p "write" caller).2.tracked_files.lookup r).map
              (fun i => (i, wid, op.id))) ∧
        (t.track_file fs p "write" caller).2.recent_reads = [])) := by
  constructor
  · intro ex hex hmem
    simp [Tracker.track_file, get_file_info, hfs, hex, hmem]
  · intro hnw
    cases hl : t.tracked_files.lookup e.absPath with
      | none =>
        have hred : t.track_file fs p "write" caller =
            (some (mkId t.db.nextId),
             Tracker.auto_create_lineage
               { db := (t.db.add_dataset e.absPath e.hash e.size (formatOf p)).2
                 tracked_files := t.tracked_files ++ [(e.absPath, mkId t.db.nextId)]
                 recent_reads := t.recent_reads
                 recent_writes := t.recent_writes ++ [e.absPath] }
               e.absPath caller) := by
          simp only [Tracker.track_file, get_file_info, hfs, hl]
          rfl
        set t2 : Tracker :=
          { db := (t.db.add_dataset e.absPath e.hash e.size (formatOf p)).2
            tracked_files := t.tracked_files ++ [(e.absPath, mkId t.db.nextId)]
            recent_reads := t.recent_reads
            recent_writes := t.recent_writes ++ [e.absPath] } with ht2
        have hl2 : t2.tracked_files.lookup e.absPath = some (mkId t.db.nextId) :=
          lookup_append_self t.tracked_files e.absPath (mkId t.db.nextId) hl
        constructor
        · intro hemp
          have hid : t2.auto_create_lineage e.absPath caller = t2 := by
            simp [Tracker.auto_create_lineage, ht2, hemp]
          rw [hred, hid]
          exact ⟨rfl, rfl, hemp⟩
        · intro hne
          obtain ⟨op, L, hops, hty, hfn, hlin, hmap, hrr, hds, htr, hrw⟩ :=
            auto_create_lineage_spec t2 e.absPath caller (mkId t.db.nextId) hl2 hne
          refine ⟨mkId t.db.nextId, op, L, ?_, ?_, ?_, hty, hfn, ?_, ?_, ?_⟩
          · rw [hred]
          · rw [hred]
            simpa [htr] using hl2
          · rw [hred]
            simpa using hops
          · rw [hred]
            simpa using hlin
          · rw [hred]
            simpa [htr] using hmap
          · rw [hred]
            exact hrr
      | some existing_id =>
        have hmem : e.absPath ∉ t.recent_writes := by
          rcases hnw with h | h
          · rw [hl] at h
            cases h
          · exact h
        have hred : t.track_file fs p "write" caller =
            (some existing_id,
             Tracker.auto_create_lineage
               { db := t.db
                 tracked_files := t.tracked_files
                 recent_reads := t.recent_reads
                 recent_writes := t.recent_writes ++ [e.absPath] }
               e.absPath caller) := by
          simp only [Tracker.track_file, get_file_info, hfs, hl, if_neg hmem]
          rfl
        set t2 : Tracker :=
          { db := t.db
            tracked_files := t.tracked_files
            recent_reads := t.recent_reads
            recent_writes := t.recent_writes ++ [e.absPath] } with ht2
        have hl2 : t2.tracked_files.lookup e.absPath = some existing_id := hl
        constructor
        · intro hemp
          have hid : t2.auto_create_lineage e.absPath caller = t2 := by
            simp [Tracker.auto_create_lineage, ht2, hemp]
          rw [hred, hid]
          exact ⟨rfl, rfl, hemp⟩
        · intro hne
          obtain ⟨op, L, hops, hty, hfn, hlin, hmap, hrr, hds, htr, hrw⟩ :=
            auto_create_lineage_spec t2 e.absPath caller existing_id hl2 hne
          refine ⟨existing_id, op, L, ?_, ?_, ?_, hty, hfn, ?_, ?_, ?_⟩
          · rw [hred]
          · rw [hred]
            simpa [htr] using hl2
          · rw [hred]
            simpa using hops
          · rw [hred]
            simpa using hlin
          · rw [hred]
            simpa [htr] using hmap
          · rw [hred]
            exact hrr

/-- Witness for the amended write-event claim: after reading `a.csv` on a
fresh tracker, a write event on `c.csv` exercises the nonempty-pending case,
and after write(c.csv), read(a.csv), a second write on `c.csv` exercises the
repeated-write case. -/
theorem write_event_behavior_witness :
    ((Tracker.new.track_file fsFour "a.csv" "read" none).2.track_file fsFour "c.csv"
        "write" none).2.recent_reads = [] ∧
    (((Tracker.new.track_file fsFour "c.csv" "write" none).2.track_file fsFour "a.csv"
        "read" none).2.track_file fsFour "c.csv" "write" none) =
      (some (mkId 0), ((Tracker.new.track_file fsFour "c.csv" "write" none).2.track_file
        fsFour "a.csv" "read" none).2) := by
  constructor
  · obtain ⟨wid, op, L, h1, h2, h3, h4, h5, h6, h7, h8⟩ :=
      ((write_event_behavior (Tracker.new.track_file fsFour "a.csv" "read" none).2 fsFour
        "c.csv" none { absPath := "/data/c.csv", size := 12, hash := "hc" }
        (by decide)).2 (Or.inl (by decide))).2 (by decide)
    exact h8
  · exact (write_event_behavior
      ((Tracker.new.track_file fsFour "c.csv" "write" none).2.track_file fsFour "a.csv"
        "read" none).2 fsFour "c.csv" none
      { absPath := "/data/c.csv", size := 12, hash := "hc" } (by decide)).1
      (mkId 0) (by decide) (by decide)

/-- Claim C6: given events read(A), read(B), write(C) on a fresh tracker,
with A, B, C existing files at distinct canonical paths, the persisted
lineage contains exactly the two edges A→C and B→C, and both reference one
and the same Operation record. -/
theorem fan_in_two_reads_one_write (fs : Fs) (pA pB pC : String)
    (c : Option CallerFrame) (eA eB eC : FsEntry)
    (hA : fs pA = some eA) (hB : fs pB = some eB) (hC : fs pC = some eC)
    (hAB : eA.absPath ≠ eB.absPath) (hAC : eA.absPath ≠ eC.absPath)
    (hBC : eB.absPath ≠ eC.absPath) :
    ∃ sA sB sC op,
      ((((Tracker.new.track_file fs pA "read" c).2.track_file fs pB "read" c).2.track_file
          fs pC "write" c).2).db.datasets.map (fun d => (d.id, d.filepath)) =
        [(sA, eA.absPath), (sB, eB.absPath), (sC, eC.absPath)] ∧
      ((((Tracker.new.track_file fs pA "read" c).2.track_file fs pB "read" c).2.track_file
          fs pC "write" c).2).db.operations.map OperationRow.id = [op] ∧
      ((((Tracker.new.track_file fs pA "read" c).2.track_file fs pB "read" c).2.track_file
          fs pC "write" c).2).db.lineage.map
          (fun l => (l.source_id, l.target_id, l.operation_id)) =
        [(sA, sC, op), (sB, sC, op)] := by
  have hBA : (eB.absPath == eA.absPath) = false := beq_eq_false_iff_ne.mpr (Ne.symm hAB)
  have hCA : (eC.absPath == eA.absPath) = false := beq_eq_false_iff_ne.mpr (Ne.symm hAC)
  have hCB : (eC.absPath == eB.absPath) = false := beq_eq_false_iff_ne.mpr (Ne.symm hBC)
  refine ⟨mkId 0, mkId 1, mkId 2, mkId 3, ?_, ?_, ?_⟩ <;>
    simp [Tracker.track_file, get_file_info, hA, hB, hC, Tracker.new, LineageDatabase.new,
      LineageDatabase.add_dataset, LineageDatabase.add_operation, Tracker.auto_create_lineage,
      addReadEdges, insertLineageRow, List.lookup, hBA, hCA, hCB]

/-- Witness for the fan-in claim on the concrete files of `fsFour`. -/
theorem fan_in_two_reads_one_write_witness :
    ((((Tracker.new.track_file fsFour "a.csv" "read" none).2.track_file fsFour "b.csv"
        "read" none).2.track_file fsFour "c.csv" "write" none).2).db.lineage.length = 2 ∧
    ((((Tracker.new.track_file fsFour "a.csv" "read" none).2.track_file fsFour "b.csv"
        "read" none).2.track_file fsFour "c.csv" "write" none).2).db.operations.length = 1 := by
  obtain ⟨sA, sB, sC, op, hds, hops, hlin⟩ :=
    fan_in_two_reads_one_write fsFour "a.csv" "b.csv" "c.csv" none
      { absPath := "/data/a.csv", size := 10, hash := "ha" }
      { absPath := "/data/b.csv", size := 11, hash := "hb" }
      { absPath := "/data/c.csv", size := 12, hash := "hc" }
      (by decide) (by decide) (by decide) (by decide) (by decide) (by decide)
  constructor
  · have hl := congrArg List.length hlin
    simpa using hl
  · have ho := congrArg List.length hops
    simpa using ho

/-- Claim C7: given events read(A), write(C), write(D) on a fresh tracker
with no read between the writes, dataset D has zero inbound lineage edges
while C has exactly one, A→C. -/
theorem window_reset_two_writes (fs : Fs) (pA pC pD : String)
    (c : Option CallerFrame) (eA eC eD : FsEntry)
    (hA : fs pA = some eA) (hC : fs pC = some eC) (hD : fs pD = some eD)
    (hAC : eA.absPath ≠ eC.absPath) (hAD : eA.absPath ≠ eD.absPath)
    (hCD : eC.absPath ≠ eD.absPath) :
    ∃ sA sC sD op,
      ((((Tracker.new.track_file fs pA "read" c).2.track_file fs pC "write" c).2.track_file
          fs pD "write" c).2).db.datasets.map (fun d => (d.id, d.filepath)) =
        [(sA, eA.absPath), (sC, eC.absPath), (sD, eD.absPath)] ∧
      ((((Tracker.new.track_file fs pA "read" c).2.track_file fs pC "write" c).2.track_file
          fs pD "write" c).2).db.operations.map OperationRow.id = [op] ∧
      ((((Tracker.new.track_file fs pA "read" c).2.track_file fs pC "write" c).2.track_file
          fs pD "write" c).2).db.lineage.map
          (fun l => (l.source_id, l.target_id, l.operation_id)) =
        [(sA, sC, op)] ∧
      ((((Tracker.new.track_file fs pA "read" c).2.track_file fs pC "write" c).2.track_file
          fs pD "write" c).2).db.lineage.countP (fun l => l.target_id == sD) = 0 ∧
      ((((Tracker.new.track_file fs pA "read" c).2.track_file fs pC "write" c).2.track_file
          fs pD "write" c).2).db.lineage.countP (fun l => l.target_id == sC) = 1 := by
  have hCA : (eC.absPath == eA.absPath) = false := beq_eq_false_iff_ne.mpr (Ne.symm hAC)
  have hDA : (eD.absPath == eA.absPath) = false := beq_eq_false_iff_ne.mpr (Ne.symm hAD)
  have hDC : (eD.absPath == eC.absPath) = false := beq_eq_false_iff_ne.mpr (Ne.symm hCD)
  refine ⟨mkId 0, mkId 1, mkId 4, mkId 2, ?_, ?_, ?_, ?_, ?_⟩ <;>
    simp [Tracker.track_file, get_file_info, hA, hC, hD, Tracker.new, LineageDatabase.new,
      LineageDatabase.add_dataset, LineageDatabase.add_operation, Tracker.auto_create_lineage,
      addReadEdges, insertLineageRow, List.lookup, hCA, hDA, hDC, mkId] <;> decide

/-- Witness for the window-reset claim on the concrete files of `fsFour`. -/
theorem window_reset_two_writes_witness :
    ((((Tracker.new.track_file fsFour "a.csv" "read" none).2.track_file fsFour "c.csv"
        "write" none).2.track_file fsFour "d.csv" "write" none).2).db.lineage.length = 1 := by
  obtain ⟨sA, sC, sD, op, hds, hops, hlin, hcntD, hcntC⟩ :=
    window_reset_two_writes fsFour "a.csv" "c.csv" "d.csv" none
      { absPath := "/data/a.csv", size := 10, hash := "ha" }
      { absPath := "/data/c.csv", size := 12, hash := "hc" }
      { absPath := "/data/d.csv", size := 13, hash := "hd" }
      (by decide) (by decide) (by decide) (by decide) (by decide) (by decide)
  have hl := congrArg List.length hlin
  simpa using hl

/-- The auto-lineage step never changes the identity cache. -/
theorem auto_create_lineage_tracked (t : Tracker) (o : String) (c : Option CallerFrame) :
    (t.auto_create_lineage o c).tracked_files = t.tracked_files := by
  unfold Tracker.auto_create_lineage
  split <;> rfl

/-- The auto-lineage step never inserts a dataset row. -/
theorem auto_create_lineage_datasets (t : Tracker) (o : String) (c : Option CallerFrame) :
    (t.auto_create_lineage o c).db.datasets = t.db.datasets := by
  unfold Tracker.auto_create_lineage
  split
  · rfl
  · cases hl : t.tracked_files.lookup o with
    | none => simp [hl, LineageDatabase.add_operation]
    | some oid =>
      obtain ⟨h1, _, _⟩ := addReadEdges_spec t.tracked_files oid
        (mkId t.db.nextId) t.recent_reads
        (t.db.add_operation "transform"
          (some ((c.map CallerFrame.function_name).getD "unknown"))
          (c.bind CallerFrame.code_line)).2
      simp only [hl]
      exact h1

/-- On a cached canonical path, `track_file` returns the cached id and leaves
both the identity cache and the datasets table untouched. -/
theorem track_file_cached (t : Tracker) (fs : Fs) (p ty : String)
    (c : Option CallerFrame) (e : FsEntry) (ex : String)
    (hfs : fs p = some e) (hl : t.tracked_files.lookup e.absPath = some ex) :
    (t.track_file fs p ty c).1 = some ex ∧
    (t.track_file fs p ty c).2.tracked_files = t.tracked_files ∧
    (t.track_file fs p ty c).2.db.datasets = t.db.datasets := by
  simp only [Tracker.track_file, get_file_info, hfs, hl]
  split
  · split
    · exact ⟨rfl, rfl, rfl⟩
    · exact ⟨rfl, rfl, rfl⟩
  · split
    · split
      · exact ⟨rfl, rfl, rfl⟩
      · exact ⟨rfl, auto_create_lineage_tracked _ _ _, auto_create_lineage_datasets _ _ _⟩
    · exact ⟨rfl, rfl, rfl⟩

/-- On an uncached path, `track_file` returns a fresh id and caches it. -/
theorem track_file_uncached (t : Tracker) (fs : Fs) (p ty : String)
    (c : Option CallerFrame) (e : FsEntry)
    (hfs : fs p = some e) (hl : t.tracked_files.lookup e.absPath = none) :
    (t.track_file fs p ty c).1 = some (mkId t.db.nextId) ∧
    (t.track_file fs p ty c).2.tracked_files =
      t.tracked_files ++ [(e.absPath, mkId t.db.nextId)] := by
  simp only [Tracker.track_file, get_file_info, hfs, hl]
  split
  · exact ⟨rfl, rfl⟩
  · split
    · exact ⟨rfl, auto_create_lineage_tracked _ _ _⟩
    · exact ⟨rfl, rfl⟩

/-- No `track_file` call, on any path and direction, ever removes or rebinds
an existing identity-cache entry: a cached canonical path keeps its dataset
id. -/
theorem track_file_lookup_mono (t : Tracker) (fs : Fs) (q ty : String)
    (c : Option CallerFrame) (a id : String)
    (h : t.tracked_files.lookup a = some id) :
    (t.track_file fs q ty c).2.tracked_files.lookup a = some id := by
  cases hq : fs q with
  | none =>
    have hred : t.track_file fs q ty c = (none, t) := by
      simp [Tracker.track_file, get_file_info, hq]
    rw [hred]
    exact h
  | some e =>
    cases hl : t.tracked_files.lookup e.absPath with
    | some ex =>
      obtain ⟨-, ht, -⟩ := track_file_cached t fs q ty c e ex hq hl
      rw [ht]
      exact h
    | none =>
      obtain ⟨-, ht⟩ := track_file_uncached t fs q ty c e hq hl
      rw [ht, List.lookup_append, h]
      rfl

/-- Across any sequence of `track_file` events, a cached canonical path keeps
its dataset id. -/
theorem runEvents_lookup_mono (evs : List TrackEvent) :
    ∀ (t : Tracker) (a id : String), t.tracked_files.lookup a = some id →
      (runEvents t evs).tracked_files.lookup a = some id := by
  induction evs with
  | nil => intro t a id h; exact h
  | cons ev rest ih =>
    intro t a id h
    exact ih _ a id (track_file_lookup_mono t ev.1 ev.2.1 ev.2.2.1 ev.2.2.2 a id h)

/-- Claim C8: after a first observation of a path and any sequence of further
`track_file` calls, re-observing the path returns the same dataset id as the
first observation and inserts no new Dataset row, even when the file system
now reports different content for the path. -/
theorem path_maps_to_one_dataset (t : Tracker) (fs fs2 : Fs) (p : String)
    (ty ty2 : String) (c c2 : Option CallerFrame) (e e2 : FsEntry)
    (evs : List TrackEvent)
    (hfs : fs p = some e) (hfs2 : fs2 p = some e2)
    (habs : e2.absPath = e.absPath) :
    ((runEvents (t.track_file fs p ty c).2 evs).track_file fs2 p ty2 c2).1 =
      (t.track_file fs p ty c).1 ∧
    ((runEvents (t.track_file fs p ty c).2 evs).track_file fs2 p ty2 c2).2.db.datasets =
      (runEvents (t.track_file fs p ty c).2 evs).db.datasets := by
  cases hl : t.tracked_files.lookup e.absPath with
  | some ex =>
    obtain ⟨hf1, ht1, -⟩ := track_file_cached t fs p ty c e ex hfs hl
    have hmid : (runEvents (t.track_file fs p ty c).2 evs).tracked_files.lookup e2.absPath =
        some ex := by
      rw [habs]
      exact runEvents_lookup_mono evs _ _ _ (by rw [ht1]; exact hl)
    obtain ⟨hf2, -, hd2⟩ := track_file_cached _ fs2 p ty2 c2 e2 ex hfs2 hmid
    exact ⟨by rw [hf2, hf1], hd2⟩
  | none =>
    obtain ⟨hf1, ht1⟩ := track_file_uncached t fs p ty c e hfs hl
    have hmid : (runEvents (t.track_file fs p ty c).2 evs).tracked_files.lookup e2.absPath =
        some (mkId t.db.nextId) := by
      rw [habs]
      refine runEvents_lookup_mono evs _ _ _ ?_
      rw [ht1]
      exact lookup_append_self t.tracked_files e.absPath (mkId t.db.nextId) hl
    obtain ⟨hf2, -, hd2⟩ := track_file_cached _ fs2 p ty2 c2 e2 _ hfs2 hmid
    exact ⟨by rw [hf2, hf1], hd2⟩

/-- Witness for the identity-cache claim: `a.csv` is re-observed after two
intervening events (a read of `b.csv` and a write of `c.csv`), through a file
system reporting changed content (different hash) for the same path. -/
theorem path_maps_to_one_dataset_witness :
    ((runEvents (Tracker.new.track_file fsFour "a.csv" "read" none).2
        [(fsFour, "b.csv", "read", none), (fsFour, "c.csv", "write", none)]).track_file
        fsChanged "a.csv" "write" none).1 =
      (Tracker.new.track_file fsFour "a.csv" "read" none).1 ∧
    ((runEvents (Tracker.new.track_file fsFour "a.csv" "read" none).2
        [(fsFour, "b.csv", "read", none), (fsFour, "c.csv", "write", none)]).track_file
        fsChanged "a.csv" "write" none).2.db.datasets =
      (runEvents (Tracker.new.track_file fsFour "a.csv" "read" none).2
        [(fsFour, "b.csv", "read", none), (fsFour, "c.csv", "write", none)]).db.datasets :=
  path_maps_to_one_dataset Tracker.new fsFour fsChanged "a.csv" "read" "write" none none
    { absPath := "/data/a.csv", size := 10, hash := "ha" }
    { absPath := "/data/a.csv", size := 99, hash := "h-changed" }
    [(fsFour, "b.csv", "read", none), (fsFour, "c.csv", "write", none)]
    (by decide) (by decide) rfl

/-- A nonempty reachability path ends in an edge whose source is either the
start or itself reachable from the start. -/
theorem reach_last {E : List (String × String)} {a b : String} (h : Reach E a b) :
    ∃ w, (w, b) ∈ E ∧ (w = a ∨ Reach E a w) := by
  induction h with
  | head hab => exact ⟨_, hab, Or.inl rfl⟩
  | cons hab _ ih =>
    obtain ⟨w, hw, hcase⟩ := ih
    rcases hcase with rfl | hr
    · exact ⟨w, hw, Or.inr (Reach.head hab)⟩
    · exact ⟨w, hw, Or.inr (Reach.cons hab hr)⟩

/-- Every node on a cycle has an in-neighbour that is also on a cycle. -/
theorem cycle_pred {E : List (String × String)} {u : String} (h : Reach E u u) :
    ∃ w, (w, u) ∈ E ∧ Reach E w w := by
  obtain ⟨w, hw, hcase⟩ := reach_last h
  rcases hcase with rfl | hr
  · exact ⟨w, hw, Reach.head hw⟩
  · exact ⟨w, hw, Reach.cons hw hr⟩

/-- A reachability path starts with an edge out of its start node. -/
theorem reach_first {E : List (String × String)} {a b : String} (h : Reach E a b) :
    ∃ c, (a, c) ∈ E := by
  cases h with
  | head hab => exact ⟨_, hab⟩
  | cons hab _ => exact ⟨_, hab⟩

/-- In the presence of a cycle, Kahn deletion never terminates successfully:
the cycle's nodes always keep an in-edge from inside the surviving set. -/
theorem kahnAux_false_of_cycle (E : List (String × String)) :
    ∀ (fuel : Nat) (S : List String),
      (∀ u, Reach E u u → u ∈ S) → HasCycle E → kahnAux fuel S E = false := by
  intro fuel
  induction fuel with
  | zero =>
    intro S hinv hcyc
    obtain ⟨v, hv⟩ := hcyc
    have hvS := hinv v hv
    cases S with
    | nil => cases hvS
    | cons x xs => rfl
  | succ fuel ih =>
    intro S hinv hcyc
    obtain ⟨v, hv⟩ := hcyc
    have hvS := hinv v hv
    simp only [kahnAux]
    rw [if_neg (by simp [List.isEmpty_iff, List.ne_nil_of_mem hvS])]
    split
    · rfl
    · refine ih _ ?_ ⟨v, hv⟩
      intro u hu
      have huS := hinv u hu
      obtain ⟨w, hw, hww⟩ := cycle_pred hu
      have hwS := hinv w hww
      have hnotR : u ∉ removable S E := by
        intro hmem
        rw [removable, List.mem_filter] at hmem
        obtain ⟨-, hpred⟩ := hmem
        have hany : E.any (fun e => decide (e.1 ∈ S) && e.2 == u) = true :=
          List.any_eq_true.mpr ⟨(w, u), hw, by simp [hwS]⟩
        simp [hany] at hpred
      rw [List.mem_filter]
      exact ⟨huS, by simpa using hnotR⟩

/-- A finite nonempty set in which every node has an in-neighbour inside the
set contains a directed cycle: follow in-neighbours and apply pigeonhole. -/
theorem cycle_of_all_have_pred (E : List (String × String)) (S : List String)
    (hne : S ≠ []) (h : ∀ v ∈ S, ∃ u, u ∈ S ∧ (u, v) ∈ E) : HasCycle E := by
  classical
  obtain ⟨v0, hv0⟩ := List.exists_mem_of_ne_nil S hne
  let f : String → String := fun v => if hv : v ∈ S then (h v hv).choose else v
  have hf : ∀ v ∈ S, f v ∈ S ∧ (f v, v) ∈ E := by
    intro v hv
    simp only [f, dif_pos hv]
    exact (h v hv).choose_spec
  have hiter : ∀ n, f^[n] v0 ∈ S := by
    intro n
    induction n with
    | zero => exact hv0
    | succ n ihn =>
      rw [Function.iterate_succ_apply']
      exact (hf _ ihn).1
  have hedge : ∀ n, (f^[n + 1] v0, f^[n] v0) ∈ E := by
    intro n
    rw [Function.iterate_succ_apply']
    exact (hf _ (hiter n)).2
  have hreach : ∀ (d i : Nat), Reach E (f^[i + d + 1] v0) (f^[i] v0) := by
    intro d
    induction d with
    | zero => intro i; exact Reach.head (hedge i)
    | succ d ihd => intro i; exact Reach.cons (hedge (i + d + 1)) (ihd i)
  have hcard : (List.toFinset S).card < (Finset.range (S.length + 1)).card := by
    rw [Finset.card_range]
    exact Nat.lt_succ_of_le (List.toFinset_card_le S)
  obtain ⟨i, hi, j, hj, hij, heq⟩ :=
    Finset.exists_ne_map_eq_of_card_lt_of_maps_to hcard
      (fun n _ => List.mem_toFinset.mpr (hiter n))
  rcases Nat.lt_or_ge i j with hlt | hge
  · have hr : Reach E (f^[j] v0) (f^[i] v0) := by
      have hh := hreach (j - i - 1) i
      rwa [show i + (j - i - 1) + 1 = j by omega] at hh
    exact ⟨f^[j] v0, by rw [heq] at hr; exact hr⟩
  · have hlt2 : j < i := lt_of_le_of_ne hge (fun hh => hij hh.symm)
    have hr : Reach E (f^[i] v0) (f^[j] v0) := by
      have hh := hreach (i - j - 1) j
      rwa [show j + (i - j - 1) + 1 = i by omega] at hh
    exact ⟨f^[i] v0, by rw [← heq] at hr; exact hr⟩

/-- Without a cycle, every nonempty surviving set has a removable node. -/
theorem removable_ne_nil (E : List (String × String)) (S : List String)
    (hS : S ≠ []) (hnc : ¬ HasCycle E) : removable S E ≠ [] := by
  intro hR
  apply hnc
  apply cycle_of_all_have_pred E S hS
  intro v hv
  have hnot : v ∉ removable S E := by simp [hR]
  rw [removable, List.mem_filter] at hnot
  have hany : E.any (fun e => decide (e.1 ∈ S) && e.2 == v) = true := by
    by_contra hno
    exact hnot ⟨hv, by simp [Bool.eq_false_iff.mpr hno]⟩
  obtain ⟨e, heE, hpe⟩ := List.any_eq_true.mp hany
  rw [Bool.and_eq_true] at hpe
  obtain ⟨h1, h2⟩ := hpe
  refine ⟨e.1, of_decide_eq_true h1, ?_⟩
  have h3 : e.2 = v := beq_iff_eq.mp h2
  have hp : (e.1, e.2) ∈ E := by
    cases e
    exact heE
  rwa [h3] at hp

/-- Without a cycle, Kahn deletion with fuel at least the set size succeeds. -/
theorem kahnAux_true_of_no_cycle (E : List (String × String)) :
    ∀ (fuel : Nat) (S : List String), S.length ≤ fuel → ¬ HasCycle E →
      kahnAux fuel S E = true := by
  intro fuel
  induction fuel with
  | zero =>
    intro S hlen _
    have hS : S = [] := List.eq_nil_of_length_eq_zero (Nat.le_zero.mp hlen)
    simp [kahnAux, hS]
  | succ fuel ih =>
    intro S hlen hnc
    by_cases hS : S = []
    · simp [kahnAux, hS]
    · simp only [kahnAux]
      rw [if_neg (by simp [List.isEmpty_iff, hS])]
      have hRne := removable_ne_nil E S hS hnc
      rw [if_neg (by simp [List.isEmpty_iff, hRne])]
      apply ih _ ?_ hnc
      obtain ⟨r, hr⟩ := List.exists_mem_of_ne_nil _ hRne
      have hrS : r ∈ S := (List.mem_filter.mp (by rw [removable] at hr; exact hr)).1
      have hdrop : (S.filter (fun v => decide (v ∉ removable S E))).length < S.length := by
        apply List.length_filter_lt_length_iff_exists.mpr
        exact ⟨r, hrS, by simp [hr]⟩
      omega

/-- Correctness of the embedded acyclicity check on graphs whose edge sources
live among the nodes: it returns true exactly when no directed cycle exists. -/
theorem isDirectedAcyclic_iff (g : LGraph)
    (hend : ∀ e ∈ g.edges, e.1 ∈ g.nodes) :
    isDirectedAcyclic g = true ↔ ¬ HasCycle g.edges := by
  constructor
  · intro h hcyc
    have hfalse := kahnAux_false_of_cycle g.edges g.nodes.length g.nodes
      (fun u hu => by
        obtain ⟨cnext, hc⟩ := reach_first hu
        exact hend (u, cnext) hc)
      hcyc
    rw [isDirectedAcyclic] at h
    rw [hfalse] at h
    cases h
  · intro hnc
    exact kahnAux_true_of_no_cycle g.edges g.nodes.length g.nodes le_rfl hnc

/-- A node inserted for itself is present afterwards. -/
theorem mem_addNode_self (ns : List String) (n : String) : n ∈ addNode ns n := by
  unfold addNode
  split
  · assumption
  · simp

/-- Node insertion preserves the nodes already present. -/
theorem mem_addNode_of_mem (ns : List String) (m n : String) (h : n ∈ ns) :
    n ∈ addNode ns m := by
  unfold addNode
  split
  · exact h
  · simp [h]

/-- An edge present after insertion was present before or is the inserted one. -/
theorem mem_of_mem_addEdgePair (es : List (String × String)) (p e : String × String)
    (h : e ∈ addEdgePair es p) : e ∈ es ∨ e = p := by
  unfold addEdgePair at h
  split at h
  · exact Or.inl h
  · rcases List.mem_append.mp h with h2 | h2
    · exact Or.inl h2
    · exact Or.inr (by simpa using h2)

/-- One build step keeps every edge endpoint registered as a node. -/
theorem addRow_inv (g : LGraph) (row : GraphViewRow)
    (hg : ∀ e ∈ g.edges, e.1 ∈ g.nodes ∧ e.2 ∈ g.nodes) :
    ∀ e ∈ (addRow g row).edges,
      e.1 ∈ (addRow g row).nodes ∧ e.2 ∈ (addRow g row).nodes := by
  intro e he
  simp only [addRow] at he ⊢
  rcases mem_of_mem_addEdgePair _ _ _ he with h2 | h2
  · obtain ⟨ha, hb⟩ := hg e h2
    exact ⟨mem_addNode_of_mem _ _ _ (mem_addNode_of_mem _ _ _ ha),
           mem_addNode_of_mem _ _ _ (mem_addNode_of_mem _ _ _ hb)⟩
  · subst h2
    exact ⟨mem_addNode_of_mem _ _ _ (mem_addNode_self _ _), mem_addNode_self _ _⟩

/-- The build fold keeps every edge endpoint registered as a node. -/
theorem buildFold_inv (rows : List GraphViewRow) :
    ∀ g : LGraph, (∀ e ∈ g.edges, e.1 ∈ g.nodes ∧ e.2 ∈ g.nodes) →
      ∀ e ∈ (rows.foldl addRow g).edges,
        e.1 ∈ (rows.foldl addRow g).nodes ∧ e.2 ∈ (rows.foldl addRow g).nodes := by
  induction rows with
  | nil => intro g hg; simpa using hg
  | cons row rest ih =>
    intro g hg
    simp only [List.foldl_cons]
    exact ih _ (addRow_inv g row hg)

/-- Edge endpoints of the built graph are among its nodes. -/
theorem build_edges_mem (db : LineageDatabase) :
    ∀ e ∈ (LineageGraph.build db).edges,
      e.1 ∈ (LineageGraph.build db).nodes ∧ e.2 ∈ (LineageGraph.build db).nodes :=
  buildFold_inv db.get_lineage_graph { nodes := [], edges := [] } (by simp)

/-- Claim C9: the statistics of the derived graph list as sources exactly the
nodes with no incoming edge and as sinks exactly the nodes with no outgoing
edge, the acyclicity flag is true exactly when the graph has no directed
cycle, and an empty store derives the empty graph with all statistics
defined and empty or zero. -/
theorem graph_stats_spec (db : LineageDatabase) :
    (∀ n, n ∈ (LineageGraph.get_stats (LineageGraph.build db)).sources ↔
        n ∈ (LineageGraph.build db).nodes ∧
        ∀ e ∈ (LineageGraph.build db).edges, e.2 ≠ n) ∧
    (∀ n, n ∈ (LineageGraph.get_stats (LineageGraph.build db)).sinks ↔
        n ∈ (LineageGraph.build db).nodes ∧
        ∀ e ∈ (LineageGraph.build db).edges, e.1 ≠ n) ∧
    ((LineageGraph.get_stats (LineageGraph.build db)).is_dag = true ↔
        ¬ HasCycle (LineageGraph.build db).edges) ∧
    (LineageGraph.build LineageDatabase.new = { nodes := [], edges := [] } ∧
     LineageGraph.get_stats (LineageGraph.build LineageDatabase.new) =
       { nodes := 0, edges := 0, is_dag := true, sources := [], sinks := [] }) := by
  refine ⟨?_, ?_, ?_, rfl, rfl⟩
  · intro n
    simp [LineageGraph.get_stats, List.mem_filter]
  · intro n
    simp [LineageGraph.get_stats, List.mem_filter]
  · exact isDirectedAcyclic_iff _ (fun e he => (build_edges_mem db e he).1)

/-- Witness for the graph-statistics claim on the straight-line pipeline
store: raw.csv is a source, final.csv is a sink, and the graph is acyclic. -/
theorem graph_stats_spec_witness :
    "raw.csv" ∈ (LineageGraph.get_stats (LineageGraph.build dbPipeline)).sources ∧
    "final.csv" ∈ (LineageGraph.get_stats (LineageGraph.build dbPipeline)).sinks ∧
    ¬ HasCycle (LineageGraph.build dbPipeline).edges :=
  ⟨((graph_stats_spec dbPipeline).1 "raw.csv").mpr (by decide),
   ((graph_stats_spec dbPipeline).2.1 "final.csv").mpr (by decide),
   ((graph_stats_spec dbPipeline).2.2.1).mp (by decide)⟩

end AutoLineage
